import Mathlib

/-!
Verification of the insurance-pricing feature-transformation and explanation
pipeline (backend/src/train/stages/prepare_data.py,
backend/src/insurance_pricing/explainability.py and
backend/src/insurance_pricing/interpretation.py), shallowly embedded in Lean.

Numbers are modelled exactly: Python floats become rationals where the code
only adds, multiplies, compares and clamps them, and reals where the code
applies log1p / expm1 / a fitted standard scaler.  Pandas single-row frames
become association lists from column names to cells, preserving column order,
since the code transforms one request row at a time.
-/

/-! ## String helpers (Python semantics: startswith, substring, lower) -/

/-- Python str.startswith: character-list prefix test. -/
def pyStartsWith (s pre : String) : Bool :=
  pre.data.isPrefixOf s.data

/-- Contiguous-sublist test on character lists, used for the Python
substring operator (pat in s). -/
def charsInfix (pat : List Char) : List Char → Bool
  | [] => pat.isEmpty
  | c :: rest => pat.isPrefixOf (c :: rest) || charsInfix pat rest

/-- Python substring test: pat in s. -/
def pyContains (s pat : String) : Bool :=
  charsInfix pat.data s.data

/-- ASCII lowercase of one character (Python str.lower on the ASCII range). -/
def lowerChar (c : Char) : Char :=
  if 65 ≤ c.toNat ∧ c.toNat ≤ 90 then Char.ofNat (c.toNat + 32) else c

/-- Python str.lower (ASCII). -/
def pyLower (s : String) : String :=
  ⟨s.data.map lowerChar⟩

/-- Join a list of strings with a separator (Python sep.join(xs)). -/
def joinSep (sep : String) : List String → String
  | [] => ""
  | [x] => x
  | x :: rest => x ++ sep ++ joinSep sep rest

/-- Single-quote character, written by code point to keep the source ASCII-clean. -/
def squote : String :=
  ⟨[Char.ofNat 39]⟩

/-! ## Decimal rendering

Python format strings used by the code: str(float) for whole observed values,
a fixed two-decimal format for range bounds, a comma-grouped whole-dollar
format for currency, and one-decimal formatting for feature values.  All are
modelled on exact rationals with round-half-to-even, matching the decimal
behaviour of the format specifiers on the values the pipeline produces. -/

/-- Digit characters of a natural number, most significant first (fuel-bounded
structural recursion). -/
def natDigitsAux : Nat → Nat → List Char → List Char
  | 0, _, acc => acc
  | fuel + 1, n, acc =>
    let d := Char.ofNat (48 + n % 10)
    if n < 10 then d :: acc else natDigitsAux fuel (n / 10) (d :: acc)

/-- Decimal string of a natural number. -/
def natStr (n : Nat) : String :=
  ⟨natDigitsAux (n + 1) n []⟩

/-- Decimal string of an integer. -/
def intStr (n : Int) : String :=
  if n < 0 then "-" ++ natStr n.natAbs else natStr n.natAbs

/-- Round half to even to an integer, as Python round and format do. -/
def roundHalfEven (q : ℚ) : ℤ :=
  let f := ⌊q⌋
  let r := q - f
  if r < 1/2 then f
  else if r > 1/2 then f + 1
  else if f % 2 = 0 then f else f + 1

/-- Insert comma separators every three digits, on a reversed digit list. -/
def commaChunks : List Char → List Char
  | a :: b :: c :: d :: rest => a :: b :: c :: ',' :: commaChunks (d :: rest)
  | l => l

/-- Python format {x:,.0f} for a nonnegative quantity: round half to even to a
whole number and insert thousands separators. -/
def fmtMoney (q : ℚ) : String :=
  ⟨(commaChunks (natStr (roundHalfEven q).toNat).data.reverse).reverse⟩

/-- Python format {x:.2f}: two decimals, round half to even. -/
def fmt2f (q : ℚ) : String :=
  let t := roundHalfEven (q * 100)
  let sign := if t < 0 then "-" else ""
  sign ++ natStr (t.natAbs / 100) ++ "." ++
    (if t.natAbs % 100 < 10 then "0" else "") ++ natStr (t.natAbs % 100)

/-- Python format {x:.1f}: one decimal, round half to even. -/
def fmt1f (q : ℚ) : String :=
  let t := roundHalfEven (q * 10)
  let sign := if t < 0 then "-" else ""
  sign ++ natStr (t.natAbs / 10) ++ "." ++ natStr (t.natAbs % 10)

/-- Python str of a float that the pipeline reads from a numeric column: a
whole value renders with a trailing .0, anything else with its decimal
digits (17 significant fractional digits at most, enough for every value the
code formats this way). -/
def fracDigits : Nat → ℚ → List Char
  | 0, _ => []
  | fuel + 1, q =>
    if q = 0 then []
    else
      let d := ⌊q * 10⌋.toNat
      Char.ofNat (48 + d % 10) :: fracDigits fuel (q * 10 - ⌊q * 10⌋)

/-- Python str(float) on the values this pipeline prints. -/
def pyFloatStr (q : ℚ) : String :=
  let sign := if q < 0 then "-" else ""
  let a := |q|
  let ip := ⌊a⌋.toNat
  let fp := a - ⌊a⌋
  if fp = 0 then sign ++ natStr ip ++ ".0"
  else sign ++ natStr ip ++ "." ++ ⟨fracDigits 17 fp⟩

/-! ## Cells and single-row frames

Val is one pandas cell: a float (exact rational), an int, a string, or NaN.
Frame is a single pandas row keyed by column name; the list order is the
column order.  Assignment to an existing column keeps its position, a new
column is appended on the right, exactly as pandas does. -/

inductive Val where
  | vnum (q : ℚ)
  | vint (n : ℤ)
  | vstr (s : String)
  | vnan
deriving DecidableEq, Repr

/-- Numeric view of a cell (int or float), none otherwise. -/
def Val.toQ : Val → Option ℚ
  | .vnum q => some q
  | .vint n => some (n : ℚ)
  | _ => none

def Frame : Type := List (String × Val)

instance : DecidableEq Frame := by
  unfold Frame
  infer_instance

/-- Column labels of a frame, in order. -/
def colsOf (f : Frame) : List String :=
  f.map Prod.fst

/-- Cell of a named column. -/
def getCol (f : Frame) (c : String) : Option Val :=
  List.lookup c f

/-- Pandas column assignment: replace in place when present, append when new. -/
def setCol : Frame → String → Val → Frame
  | [], c, v => [(c, v)]
  | (c0, v0) :: t, c, v => if c0 = c then (c, v) :: t else (c0, v0) :: setCol t c v

/-! ## Attribution aggregator (explainability.py) -/

/-- RAW_FEATURE_ORDER from insurance_pricing/model.py. -/
def RAW_FEATURE_ORDER : List String :=
  ["age", "sex", "bmi", "children", "smoker", "region"]

/-- ShapContribution from insurance_pricing/schemas.py. -/
structure ShapContribution where
  feature : String
  value : Val
  shap_value : ℚ
  abs_shap_value : ℚ
deriving DecidableEq, Repr

/-- ShapPayload from insurance_pricing/schemas.py. -/
structure ShapPayload where
  base_value : ℚ
  contributions : List ShapContribution
  top_k : ℕ
deriving DecidableEq, Repr

/-- Add into the value stored under a key of an insertion-ordered dict,
creating the key on the right when absent: buckets[k] += a and
extras[k] = extras.get(k, 0.0) + a. -/
def updAdd : List (String × ℚ) → String → ℚ → List (String × ℚ)
  | [], k, a => [(k, a)]
  | (k0, v) :: t, k, a => if k0 = k then (k0, v + a) :: t else (k0, v) :: updAdd t k a

/-- Stored value of a key, with a default. -/
def lookupD (l : List (String × ℚ)) (k : String) (d : ℚ) : ℚ :=
  (List.lookup k l).getD d

/-- dict.fromkeys(RAW_FEATURE_ORDER, 0.0). -/
def initBuckets : List (String × ℚ) :=
  RAW_FEATURE_ORDER.map fun f => (f, 0)

/-- Loop body of aggregate contributions: route one expanded-column
contribution into the raw-feature buckets or the extras dict. -/
def bucketStep (st : List (String × ℚ) × List (String × ℚ)) (p : String × ℚ) :
    List (String × ℚ) × List (String × ℚ) :=
  let (buckets, extras) := st
  let (name, amount) := p
  if name ∈ buckets.map Prod.fst then (updAdd buckets name amount, extras)
  else if pyStartsWith name "region_" then (updAdd buckets "region" amount, extras)
  else if name = "smoker_bmi" then
    (updAdd (updAdd buckets "smoker" (amount / 2)) "bmi" (amount / 2), extras)
  else if name = "age_bmi" then
    (updAdd (updAdd buckets "age" (amount / 2)) "bmi" (amount / 2), extras)
  else (buckets, updAdd extras name amount)

/-- Buckets and extras after folding the zipped (name, value) pairs.  The
Python loop zips with strict=False, so the pairs are truncated to the
shorter of the two lists. -/
def foldBuckets (feature_names : List String) (shap_values : List ℚ) :
    List (String × ℚ) × List (String × ℚ) :=
  (feature_names.zip shap_values).foldl bucketStep (initBuckets, [])

/-- Final value of one raw-feature bucket. -/
def bucketQ (feature_names : List String) (shap_values : List ℚ) (f : String) : ℚ :=
  lookupD (foldBuckets feature_names shap_values).1 f 0

/-- native value from explainability.py: str, int and float cells pass
through; a missing value (None) becomes the empty string. -/
def nativeValue : Option Val → Val
  | some v => v
  | none => .vstr ""

/-- aggregate contributions from explainability.py: bucket the expanded-space
contribution vector onto the six raw features, then one output entry per raw
feature followed by one entry per extras key. -/
def aggregateContributions (raw_row : List (String × Val)) (feature_names : List String)
    (shap_values : List ℚ) : List ShapContribution :=
  let st := foldBuckets feature_names shap_values
  (RAW_FEATURE_ORDER.map fun f =>
    let s := lookupD st.1 f 0
    { feature := f, value := nativeValue (List.lookup f raw_row),
      shap_value := s, abs_shap_value := |s| })
  ++ st.2.map fun p =>
    { feature := p.1, value := .vstr "derived", shap_value := p.2, abs_shap_value := |p.2| }

/-- Sum of the signed contributions carried by a list of output entries. -/
def shapSum (l : List ShapContribution) : ℚ :=
  (l.map ShapContribution.shap_value).sum

/-! ## Shape handling (as 1d vector, explainability.py) -/

/-- Numpy ndarray of rationals: a shape and the row-major data. -/
structure NdArray where
  shape : List ℕ
  data : List ℚ
deriving DecidableEq, Repr

/-- as 1d vector from explainability.py, on an array input: a 1-D array
passes through unchanged (its width is never checked), a 2-D array
contributes its first row, an array of rank three or more is reshaped to
rows of the expected width — taking the first row means taking the first
expected-width entries of the row-major data, and numpy raises when the
total size does not divide evenly or the result has no first row — and a
rank-0 array falls through to a zero vector. -/
def as1dVector (a : NdArray) (expected_width : ℕ) : Except String (List ℚ) :=
  if a.shape.length = 1 then .ok a.data
  else if a.shape.length = 2 then .ok (a.data.take (a.shape.getD 1 0))
  else if 3 ≤ a.shape.length then
    if expected_width ≠ 0 ∧ a.data.length % expected_width = 0 ∧ a.data.length ≠ 0 then
      .ok (a.data.take expected_width)
    else .error "ValueError: cannot reshape array"
  else .ok (List.replicate expected_width 0)

/-- List unwrapping of as 1d vector: a nonempty Python list of arrays
contributes its first element, an empty list becomes the empty 1-D array. -/
def as1dFromRaw (raw : List NdArray ⊕ NdArray) (expected_width : ℕ) :
    Except String (List ℚ) :=
  match raw with
  | .inl (a :: _) => as1dVector a expected_width
  | .inl [] => .ok []
  | .inr a => as1dVector a expected_width

/-! ## Transformer state (prepare_data.py, InsuranceDataTransformer)

One structure per fitted artifact.  The fixed-key dicts the fit method builds
(winsorize bounds over bmi and charges, raw feature ranges over age, bmi and
children) are unrolled into named fields; the scalers store the fitted
(mean, scale) parameters directly, feature-side over exact rationals and
target-side over the reals because the fitted target scale is a square root. -/

/-- binary sex mapping fixed by fit encode mappings. -/
def binarySex : List (String × ℤ) :=
  [("female", 0), ("male", 1)]

/-- binary smoker mapping fixed by fit encode mappings. -/
def binarySmoker : List (String × ℤ) :=
  [("no", 0), ("yes", 1)]

structure InsuranceDataTransformer where
  winsorize_bmi : ℚ × ℚ
  winsorize_charges : ℚ × ℚ
  onehot_region_categories : List String
  onehot_region_columns : List String
  feature_columns : List String
  scale_feature_columns : List String
  feature_scaler : Option (List (ℚ × ℚ))
  target_scaler : Option (ℝ × ℝ)
  target_log : Bool
  raw_range_age : ℚ × ℚ
  raw_range_bmi : ℚ × ℚ
  raw_range_children : ℚ × ℚ

/-- get feature columns after encode: base numeric, binary and one-hot
columns, then the two interaction terms. -/
def getFeatureColumnsAfterEncode (onehot_region_columns : List String) : List String :=
  ["age", "sex", "bmi", "children", "smoker"] ++ onehot_region_columns
    ++ ["smoker_bmi", "age_bmi"]

/-- Series.clip(lower, upper): apply the lower bound, then the upper bound. -/
def winsorizeQ (bounds : ℚ × ℚ) (x : ℚ) : ℚ :=
  min bounds.2 (max bounds.1 x)

/-- Clip one cell; non-numeric cells degrade to NaN, outside the valid domain. -/
def clipVal (bounds : ℚ × ℚ) : Val → Val
  | .vnum q => .vnum (winsorizeQ bounds q)
  | .vint n => .vnum (winsorizeQ bounds (n : ℚ))
  | _ => .vnan

/-- Series.map(mapping).astype(float): an unmapped key becomes NaN. -/
def mapBinary (m : List (String × ℤ)) : Val → Val
  | .vstr s =>
    match List.lookup s m with
    | some n => .vnum (n : ℚ)
    | none => .vnan
  | _ => .vnan

/-- One-hot cell: (region == category).astype(float). -/
def oneHotVal (v : Val) (category : String) : Val :=
  .vnum (if v = .vstr category then 1 else 0)

/-- Product of two numeric cells; NaN otherwise. -/
def mulVal (a b : Val) : Val :=
  match a.toQ, b.toQ with
  | some x, some y => .vnum (x * y)
  | _, _ => .vnan

/-- Inner loop of apply encoding: assign one one-hot column per fitted region
category, reading the raw region column each iteration. -/
def encodeRegions : List (String × String) → Frame → Option Frame
  | [], f => some f
  | (category, col) :: rest, f =>
    match getCol f "region" with
    | some r => encodeRegions rest (setCol f col (oneHotVal r category))
    | none => none

/-- apply encoding from prepare_data.py: map the two binary columns and add
the one-hot region columns.  Reading a missing column is a pandas KeyError,
modelled as none. -/
def applyEncoding (tr : InsuranceDataTransformer) (f : Frame) : Option Frame :=
  match getCol f "sex" with
  | none => none
  | some sexv =>
    let f1 := setCol f "sex" (mapBinary binarySex sexv)
    match getCol f1 "smoker" with
    | none => none
    | some smov =>
      let f2 := setCol f1 "smoker" (mapBinary binarySmoker smov)
      encodeRegions (tr.onehot_region_categories.zip tr.onehot_region_columns) f2

/-- add interactions from prepare_data.py: smoker_bmi and age_bmi products. -/
def addInteractions (f : Frame) : Option Frame :=
  match getCol f "smoker", getCol f "bmi" with
  | some sm, some b =>
    let f1 := setCol f "smoker_bmi" (mulVal sm b)
    match getCol f1 "age", getCol f1 "bmi" with
    | some a, some b2 => some (setCol f1 "age_bmi" (mulVal a b2))
    | _, _ => none
  | _, _ => none

/-- Column selection t[feature_columns]: every requested label in order, a
missing label being a pandas KeyError. -/
def selectCols (f : Frame) : List String → Option Frame
  | [] => some []
  | c :: cs =>
    match getCol f c, selectCols f cs with
    | some v, some rest => some ((c, v) :: rest)
    | _, _ => none

/-- StandardScaler transform of one cell: (x - mean) / scale. -/
def scaleVal (mean scale : ℚ) : Val → Val
  | .vnum q => .vnum ((q - mean) / scale)
  | .vint n => .vnum (((n : ℚ) - mean) / scale)
  | _ => .vnan

/-- Assignment x[scale_feature_columns] = scaler.transform(...): rewrite each
scaled column in place. -/
def applyScaler (cols : List String) (params : List (ℚ × ℚ)) (f : Frame) : Frame :=
  (cols.zip params).foldl
    (fun acc cp =>
      match getCol acc cp.1 with
      | some v => setCol acc cp.1 (scaleVal cp.2.1 cp.2.2 v)
      | none => acc)
    f

/-- StandardScaler fit on the single-row matrix of the lazy branch: the mean
of one sample is the sample and its variance is zero, which sklearn maps to
scale one. -/
def fitScalerSingleRow (f : Frame) (cols : List String) : List (ℚ × ℚ) :=
  cols.map fun c =>
    match (getCol f c).bind Val.toQ with
    | some q => (q, 1)
    | none => (0, 1)

/-- transform features internal from prepare_data.py.  Returns the possibly
updated transformer (the lazy branch fits a feature scaler when none was
saved) and the transformed single-row frame; none models the pandas
KeyError on a malformed input row. -/
def transformFeaturesInternal (tr : InsuranceDataTransformer) (f : Frame) :
    InsuranceDataTransformer × Option Frame :=
  let t :=
    match getCol f "bmi" with
    | some v => setCol f "bmi" (clipVal tr.winsorize_bmi v)
    | none => f
  match (applyEncoding tr t).bind addInteractions with
  | none => (tr, none)
  | some t2 =>
    match selectCols t2 tr.feature_columns with
    | none => (tr, none)
    | some x =>
      match tr.feature_scaler with
      | none =>
        let ps := fitScalerSingleRow x tr.scale_feature_columns
        ({ tr with feature_scaler := some ps },
          some (applyScaler tr.scale_feature_columns ps x))
      | some ps => (tr, some (applyScaler tr.scale_feature_columns ps x))

/-- transform features from prepare_data.py (a direct delegation). -/
def transformFeatures (tr : InsuranceDataTransformer) (f : Frame) :
    InsuranceDataTransformer × Option Frame :=
  transformFeaturesInternal tr f

/-! ## Extrapolation detector (prepare_data.py, check extrapolation) -/

/-- Raw request row for the extrapolation check, carrying the six schema
attributes with their schema types. -/
structure RawRow where
  age : ℚ
  sex : String
  bmi : ℚ
  children : ℚ
  smoker : String
  region : String
deriving DecidableEq, Repr

/-- Out-of-range warning text: col=value is outside raw train range
[low, high], with the two-decimal bound format of the source. -/
def rangeWarnMsg (col : String) (value : ℚ) (bounds : ℚ × ℚ) : String :=
  col ++ "=" ++ pyFloatStr value ++ " is outside raw train range [" ++
    fmt2f bounds.1 ++ ", " ++ fmt2f bounds.2 ++ "]"

/-- Unseen-category warning text for the region feature. -/
def regionWarnMsg (region : String) : String :=
  "region=" ++ squote ++ region ++ squote ++ " was not observed in training data"

/-- Warning of one numeric raw feature: a strict comparison against the
fitted raw range, no clamping. -/
def rangeWarn (col : String) (value : ℚ) (bounds : ℚ × ℚ) : List String :=
  if value < bounds.1 ∨ value > bounds.2 then [rangeWarnMsg col value bounds] else []

/-- check extrapolation from prepare_data.py: the numeric features in the
fixed fit-time dict order age, bmi, children, then the region category
check.  The function only reports; it never writes to the row or state. -/
def checkExtrapolation (tr : InsuranceDataTransformer) (r : RawRow) : List String :=
  rangeWarn "age" r.age tr.raw_range_age ++
  rangeWarn "bmi" r.bmi tr.raw_range_bmi ++
  rangeWarn "children" r.children tr.raw_range_children ++
  (if r.region ∈ tr.onehot_region_categories then [] else [regionWarnMsg r.region])

/-- Warnings of one feature within a warning list: those whose text opens
with the feature name followed by an equals sign. -/
def warnsFor (ws : List String) (feature : String) : List String :=
  ws.filter fun w => pyStartsWith w (feature ++ "=")

/-! ## Target transform (prepare_data.py, fit / transform / inverse) -/

/-- Ascending insertion sort of rationals (Series.quantile sorts its data). -/
def insertAsc (x : ℚ) : List ℚ → List ℚ
  | [] => [x]
  | h :: t => if x ≤ h then x :: h :: t else h :: insertAsc x t

def sortAsc (xs : List ℚ) : List ℚ :=
  xs.foldr insertAsc []

/-- Series.quantile with the default linear interpolation: the value at
fractional position q * (n - 1) in the sorted data. -/
def quantileQ (xs : List ℚ) (q : ℚ) : ℚ :=
  let s := sortAsc xs
  let n := s.length
  if n = 0 then 0
  else
    let pos : ℚ := q * ((n : ℚ) - 1)
    let i : ℕ := (⌊pos⌋).toNat
    let lo := s.getD i 0
    let hi := s.getD (i + 1) lo
    lo + (pos - (⌊pos⌋ : ℚ)) * (hi - lo)

def listMinQ : List ℚ → ℚ
  | [] => 0
  | h :: t => t.foldl min h

def listMaxQ : List ℚ → ℚ
  | [] => 0
  | h :: t => t.foldl max h

/-- iqr bounds from prepare_data.py: quartiles plus the IQR fence, each bound
clamped to the observed data range. -/
def iqrBounds (xs : List ℚ) (multiplier : ℚ) : ℚ × ℚ :=
  let q1 := quantileQ xs (1/4)
  let q3 := quantileQ xs (3/4)
  let iqr := q3 - q1
  (max (listMinQ xs) (q1 - multiplier * iqr), min (listMaxQ xs) (q3 + multiplier * iqr))

/-- IQR_MULTIPLIER from prepare_data.py. -/
def IQR_MULTIPLIER : ℚ := 3/2

noncomputable section

/-- numpy log1p over the reals. -/
def log1p (x : ℝ) : ℝ := Real.log (1 + x)

/-- numpy expm1 over the reals. -/
def expm1 (x : ℝ) : ℝ := Real.exp x - 1

/-- StandardScaler fit on the log target column: mean and scale, where the
scale is the square root of the biased variance, with the sklearn convention
that a zero variance yields scale one. -/
def fitTargetScaler (bounds : ℚ × ℚ) (ys : List ℚ) : ℝ × ℝ :=
  let logs : List ℝ := ys.map fun y => log1p ((winsorizeQ bounds y : ℚ) : ℝ)
  let n : ℝ := (logs.length : ℝ)
  let mean := logs.sum / n
  let variance := (logs.map fun t => (t - mean) ^ 2).sum / n
  (mean, if variance = 0 then 1 else Real.sqrt variance)

/-- Target half of transform features and target from prepare_data.py:
winsorize to the fitted charges bounds, log1p when target log is set, then
standardize when a target scaler was fit. -/
def forwardTargetTransform (tr : InsuranceDataTransformer) (y : ℚ) : ℝ :=
  let yw : ℝ := ((winsorizeQ tr.winsorize_charges y : ℚ) : ℝ)
  let z : ℝ := if tr.target_log then log1p yw else yw
  match tr.target_scaler with
  | some p => (z - p.1) / p.2
  | none => z

/-- inverse transform target from prepare_data.py: inverse standardization
when a target scaler was fit, then expm1. -/
def inverseTransformTarget (tr : InsuranceDataTransformer) (z : ℝ) : ℝ :=
  expm1 (match tr.target_scaler with
         | some p => z * p.2 + p.1
         | none => z)

end

/-! ## Narrative composer and low-signal judgment (interpretation.py) -/

/-- TopFeatureDirection from insurance_pricing/schemas.py. -/
structure TopFeatureDirection where
  feature : String
  direction : String
  strength : String
deriving DecidableEq, Repr

/-- InterpretationPayload from insurance_pricing/schemas.py. -/
structure InterpretationPayload where
  headline : String
  bullets : List String
  caveats : List String
  top_features : List TopFeatureDirection
deriving DecidableEq, Repr

/-- format feature value from interpretation.py: whole floats collapse to
their integer digits, other floats keep one decimal, ints and strings pass
through. -/
def formatFeatureValue : Val → String
  | .vnum q => if q.den = 1 then intStr q.num else fmt1f q
  | .vint n => intStr n
  | .vstr s => s
  | .vnan => "nan"

/-- top feature direction from interpretation.py. -/
def topFeatureDirection (shap_value : ℚ) : String :=
  if shap_value > 0 then "increases"
  else if shap_value < 0 then "decreases"
  else "mixed"

/-- top feature strength from interpretation.py: rank based. -/
def topFeatureStrength (rank : ℕ) : String :=
  if rank = 0 then "high"
  else if rank = 1 ∨ rank = 2 then "medium"
  else "low"

/-- Stable insertion step for a descending sort by the stored absolute
contribution; an element inserted from the right goes after every earlier
element of equal key, as Python sorted(key, reverse=True) keeps order. -/
def insertByAbsDesc (x : ShapContribution) : List ShapContribution → List ShapContribution
  | [] => [x]
  | h :: t => if x.abs_shap_value ≥ h.abs_shap_value then x :: h :: t else h :: insertByAbsDesc x t

/-- Python sorted(contributions, key=abs shap value, reverse=True). -/
def sortByAbsDesc (l : List ShapContribution) : List ShapContribution :=
  l.foldr insertByAbsDesc []

/-- Fixed filler bullet of the composer. -/
def fillerBullet : String :=
  "Smaller remaining features had limited impact compared with the top drivers."

/-- Fixed caveat strings of the composer. -/
def caveatLocal : String :=
  "This explanation is for this prediction only."

def caveatAssoc : String :=
  "Contributions reflect model behavior, not causation."

/-- Pad with the filler bullet while fewer than five bullets exist. -/
def padToFive (l : List String) : List String :=
  l ++ List.replicate (5 - l.length) fillerBullet

/-- Bullet of one top-three feature: direction by the sign of its
contribution, with an explicit zero case. -/
def topFeatureBullet (item : ShapContribution) : String :=
  let fv := formatFeatureValue item.value
  let delta := "$" ++ fmtMoney |item.shap_value|
  if item.shap_value > 0 then
    item.feature ++ " (" ++ fv ++ ") increased the estimate by about " ++ delta ++ "."
  else if item.shap_value < 0 then
    item.feature ++ " (" ++ fv ++ ") decreased the estimate by about " ++ delta ++ "."
  else
    item.feature ++ " (" ++ fv ++ ") had minimal effect on this estimate."

/-- generate fallback interpretation from interpretation.py: the
deterministic narrative composer. -/
def generateFallbackInterpretation (shap_payload : ShapPayload)
    (prediction_charges : ℚ) : InterpretationPayload :=
  let ranked := sortByAbsDesc shap_payload.contributions
  let top_three := ranked.take 3
  let top_features_source := ranked.take 5
  let baseline_gap := prediction_charges - shap_payload.base_value
  let baseline_relation := if baseline_gap ≥ 0 then "above" else "below"
  let joined := joinSep ", " ((top_three.take 2).map ShapContribution.feature)
  let driver_names := if joined = "" then "the top features" else joined
  let headline :=
    "Estimate is " ++ baseline_relation ++ " baseline by $" ++ fmtMoney |baseline_gap| ++
      ", mainly driven by " ++ driver_names ++ "."
  let bullets1 := top_three.map topFeatureBullet
  let remaining := ranked.drop 3
  let bullets2 :=
    if remaining = [] then []
    else
      let remaining_net := (remaining.map ShapContribution.shap_value).sum
      let direction := if remaining_net ≥ 0 then "upward" else "downward"
      ["The remaining features combined for a net " ++ direction ++
        " nudge of about $" ++ fmtMoney |remaining_net| ++ "."]
  let gap_direction := if baseline_gap ≥ 0 then "above" else "below"
  let bullets3 :=
    ["Overall, this estimate sits $" ++ fmtMoney |baseline_gap| ++ " " ++ gap_direction ++
      " the baseline average, primarily shaped by " ++ driver_names ++ "."]
  { headline := headline
    bullets := (padToFive (bullets1 ++ bullets2 ++ bullets3)).take 5
    caveats := [caveatLocal, caveatAssoc]
    top_features := top_features_source.enum.map fun ri =>
      { feature := ri.2.feature
        direction := topFeatureDirection ri.2.shap_value
        strength := topFeatureStrength ri.1 } }

/-- Generic boilerplate tokens of the low-signal judgment. -/
def genericTokens : List String :=
  ["predicted charge", "predicted charges", "base value", "estimate amount"]

/-- Whether a lowercased bullet mentions any of the lowercased top feature
names. -/
def bulletHasFeature (features_lower : List String) (bullet : String) : Bool :=
  features_lower.any fun f => pyContains (pyLower bullet) f

/-- Whether a lowercased bullet matches a generic boilerplate token. -/
def bulletHasGenericToken (bullet : String) : Bool :=
  genericTokens.any fun t => pyContains (pyLower bullet) t

/-- is low signal interpretation from interpretation.py: fewer than two
bullets at all, or fewer than two bullets mentioning a supplied top feature
name, or every bullet a generic-token match without a feature mention. -/
def isLowSignalInterpretation (interpretation : InterpretationPayload)
    (top_features : List String) : Bool :=
  if interpretation.bullets.length < 2 then true
  else
    let features_lower := top_features.map pyLower
    let bullets_with_feature :=
      interpretation.bullets.countP fun b => bulletHasFeature features_lower b
    let generic_without_features :=
      interpretation.bullets.countP fun b =>
        !bulletHasFeature features_lower b && bulletHasGenericToken b
    if bullets_with_feature < 2 then true
    else generic_without_features = interpretation.bullets.length

/-- Feature names interpret shap passes into the low-signal check: the
top three contributions by stored absolute value. -/
def topThreeFeatureNames (contributions : List ShapContribution) : List String :=
  ((sortByAbsDesc contributions).take 3).map ShapContribution.feature

/-- Top-five feature names of a contribution list, as the claim under test
reads the specification. -/
def topFiveFeatureNames (contributions : List ShapContribution) : List String :=
  ((sortByAbsDesc contributions).take 5).map ShapContribution.feature

/-- Count of bullets mentioning any of the given feature names. -/
def countFeatureBullets (bullets : List String) (names : List String) : ℕ :=
  bullets.countP fun b => bulletHasFeature (names.map pyLower) b

/-- Modelled from the specification words of the low-signal contract: fewer
than two bullets mentioning any supplied top feature name, or all bullets
generic-token matches with zero feature mentions.  Kept separate from the
implementation model so the two can be compared. -/
def lowSignalPerSpec (bullets : List String) (names : List String) : Bool :=
  decide (countFeatureBullets bullets names < 2) ||
    (decide (countFeatureBullets bullets names = 0) && bullets.all bulletHasGenericToken)

/-! ## Concrete fitted states used by witnesses and counterexamples -/

/-- Fitted transformer shape shared by the computable witnesses: the four
observed region levels in sorted order, the derived one-hot columns, the
fixed scaled columns, and a saved feature scaler. -/
def baseTr : InsuranceDataTransformer :=
  { winsorize_bmi := (1596/100, 4706/100)
    winsorize_charges := (112187/100, 3480816/100)
    onehot_region_categories := ["northeast", "northwest", "southeast", "southwest"]
    onehot_region_columns :=
      ["region_northeast", "region_northwest", "region_southeast", "region_southwest"]
    feature_columns := getFeatureColumnsAfterEncode
      ["region_northeast", "region_northwest", "region_southeast", "region_southwest"]
    scale_feature_columns := ["age", "bmi"]
    feature_scaler := some [(3921/100, 1), (3066/100, 1)]
    target_scaler := none
    target_log := true
    raw_range_age := (18, 64)
    raw_range_bmi := (1596/100, 4906/100)
    raw_range_children := (0, 5) }

/-- Training charges column of the invertibility witness. -/
def c1WitnessCharges : List ℚ := [1, 2, 3]

/-- Training charges column of the invertibility counterexample: the value
100 sits far beyond the upper IQR fence of the four zeros, so the fitted
winsorize bound clamps it. -/
def c1CounterCharges : List ℚ := [0, 0, 0, 0, 100]

noncomputable def c1WitnessTr : InsuranceDataTransformer :=
  { baseTr with
    winsorize_charges := iqrBounds c1WitnessCharges IQR_MULTIPLIER
    target_scaler :=
      some (fitTargetScaler (iqrBounds c1WitnessCharges IQR_MULTIPLIER) c1WitnessCharges) }

noncomputable def c1CounterTr : InsuranceDataTransformer :=
  { baseTr with
    winsorize_charges := iqrBounds c1CounterCharges IQR_MULTIPLIER
    target_scaler :=
      some (fitTargetScaler (iqrBounds c1CounterCharges IQR_MULTIPLIER) c1CounterCharges) }

/-- Concrete attribution list used by the composer witnesses: five ranked
raw features of a representative request. -/
def exampleContribs : List ShapContribution :=
  [{ feature := "smoker", value := .vstr "yes", shap_value := 120, abs_shap_value := 120 },
   { feature := "bmi", value := .vnum (275/10), shap_value := -40, abs_shap_value := 40 },
   { feature := "age", value := .vint 40, shap_value := 30, abs_shap_value := 30 },
   { feature := "children", value := .vint 1, shap_value := -20, abs_shap_value := 20 },
   { feature := "region", value := .vstr "southeast", shap_value := 10, abs_shap_value := 10 }]

/-- Concrete attribution payload used by the composer witnesses. -/
def examplePayload : ShapPayload :=
  { base_value := 9000, contributions := exampleContribs, top_k := 6 }

/-- External narrative of the low-signal counterexample: two distinct
bullets, each naming the fourth-ranked feature. -/
def c6Interp : InterpretationPayload :=
  { headline := "An external narrative"
    bullets := ["children pushed the estimate higher",
                "the children count mattered strongly"]
    caveats := []
    top_features := [] }

/-- Raw request row of the extrapolation counterexample: bmi one unit above
the fitted training maximum 49.06, everything else inside its range. -/
def c4Row : RawRow :=
  { age := 40, sex := "male", bmi := 50, children := 1, smoker := "yes",
    region := "southeast" }

/-- Valid raw input row of the column-order witness, with its columns
deliberately out of schema order. -/
def c3Frame : Frame :=
  [("region", .vstr "southeast"), ("age", .vint 40), ("smoker", .vstr "yes"),
   ("bmi", .vnum 30), ("sex", .vstr "male"), ("children", .vint 1)]

/-! ## Helper lemmas: ordered-dict buckets -/

theorem updAdd_sum (l : List (String × ℚ)) (k : String) (a : ℚ) :
    ((updAdd l k a).map Prod.snd).sum = (l.map Prod.snd).sum + a := by
  induction l with
  | nil => simp [updAdd]
  | cons hd t ih =>
    by_cases hk : hd.1 = k
    · simp only [updAdd, if_pos hk, List.map_cons, List.sum_cons]
      ring
    · simp only [updAdd, if_neg hk, List.map_cons, List.sum_cons, ih]
      ring

theorem updAdd_keys_of_mem {l : List (String × ℚ)} {k : String} (a : ℚ)
    (h : k ∈ l.map Prod.fst) : (updAdd l k a).map Prod.fst = l.map Prod.fst := by
  induction l with
  | nil => simp at h
  | cons hd t ih =>
    by_cases hk : hd.1 = k
    · simp [updAdd, if_pos hk, hk]
    · have hmem : k ∈ t.map Prod.fst := by
        rcases List.mem_cons.mp h with h1 | h1
        · exact absurd h1.symm hk
        · exact h1
      simp [updAdd, if_neg hk, ih hmem]

theorem lookupD_updAdd_self (l : List (String × ℚ)) (k : String) (a : ℚ) :
    lookupD (updAdd l k a) k 0 = lookupD l k 0 + a := by
  induction l with
  | nil => simp [updAdd, lookupD, List.lookup]
  | cons hd t ih =>
    by_cases hk : hd.1 = k
    · simp [updAdd, if_pos hk, lookupD, List.lookup, hk]
    · have hbeq : (k == hd.1) = false := beq_eq_false_iff_ne.mpr fun he => hk he.symm
      simp only [updAdd, if_neg hk, lookupD, List.lookup, hbeq] at ih ⊢
      exact ih

theorem lookupD_updAdd_ne (l : List (String × ℚ)) {k k2 : String} (a d : ℚ)
    (h : k2 ≠ k) : lookupD (updAdd l k a) k2 d = lookupD l k2 d := by
  have hbeq : (k2 == k) = false := beq_eq_false_iff_ne.mpr h
  induction l with
  | nil => simp [updAdd, lookupD, List.lookup, hbeq]
  | cons hd t ih =>
    by_cases hk : hd.1 = k
    · subst hk
      simp [updAdd, lookupD, List.lookup, hbeq]
    · simp only [updAdd, if_neg hk, lookupD, List.lookup]
      by_cases h2 : k2 = hd.1
      · simp [h2]
      · have hbeq2 : (k2 == hd.1) = false := beq_eq_false_iff_ne.mpr h2
        simp only [hbeq2]
        exact ih

theorem bucketStep_keys {st : List (String × ℚ) × List (String × ℚ)}
    (p : String × ℚ) (h : st.1.map Prod.fst = RAW_FEATURE_ORDER) :
    ((bucketStep st p).1).map Prod.fst = RAW_FEATURE_ORDER := by
  obtain ⟨b, e⟩ := st
  simp only at h
  have hr : "region" ∈ b.map Prod.fst := by rw [h]; decide
  have hs : "smoker" ∈ b.map Prod.fst := by rw [h]; decide
  have hb : "bmi" ∈ b.map Prod.fst := by rw [h]; decide
  have ha : "age" ∈ b.map Prod.fst := by rw [h]; decide
  have hb2 : "bmi" ∈ (updAdd b "smoker" (p.2 / 2)).map Prod.fst := by
    rw [updAdd_keys_of_mem _ hs]; exact hb
  have hb3 : "bmi" ∈ (updAdd b "age" (p.2 / 2)).map Prod.fst := by
    rw [updAdd_keys_of_mem _ ha]; exact hb
  simp only [bucketStep]
  split_ifs with h1 h2 h3 h4
  · rw [updAdd_keys_of_mem _ h1, h]
  · rw [updAdd_keys_of_mem _ hr, h]
  · rw [updAdd_keys_of_mem _ hb2, updAdd_keys_of_mem _ hs, h]
  · rw [updAdd_keys_of_mem _ hb3, updAdd_keys_of_mem _ ha, h]
  · exact h

theorem foldl_bucketStep_keys (l : List (String × ℚ))
    (st : List (String × ℚ) × List (String × ℚ))
    (h : st.1.map Prod.fst = RAW_FEATURE_ORDER) :
    ((l.foldl bucketStep st).1).map Prod.fst = RAW_FEATURE_ORDER := by
  induction l generalizing st with
  | nil => exact h
  | cons p t ih => exact ih _ (bucketStep_keys p h)

theorem foldBuckets_keys (ns : List String) (vs : List ℚ) :
    ((foldBuckets ns vs).1).map Prod.fst = RAW_FEATURE_ORDER := by
  apply foldl_bucketStep_keys
  decide

theorem bucketStep_sum (st : List (String × ℚ) × List (String × ℚ)) (p : String × ℚ) :
    (((bucketStep st p).1).map Prod.snd).sum + (((bucketStep st p).2).map Prod.snd).sum =
      (st.1.map Prod.snd).sum + (st.2.map Prod.snd).sum + p.2 := by
  obtain ⟨b, e⟩ := st
  simp only [bucketStep]
  split_ifs with h1 h2 h3 h4
  · simp [updAdd_sum]; ring
  · simp [updAdd_sum]; ring
  · simp [updAdd_sum]; ring
  · simp [updAdd_sum]; ring
  · simp [updAdd_sum]; ring

theorem foldl_bucketStep_sum (l : List (String × ℚ))
    (st : List (String × ℚ) × List (String × ℚ)) :
    (((l.foldl bucketStep st).1).map Prod.snd).sum +
      (((l.foldl bucketStep st).2).map Prod.snd).sum =
      (st.1.map Prod.snd).sum + (st.2.map Prod.snd).sum + (l.map Prod.snd).sum := by
  induction l generalizing st with
  | nil => simp
  | cons p t ih =>
    simp only [List.foldl_cons, List.map_cons, List.sum_cons]
    rw [ih (bucketStep st p), bucketStep_sum]
    ring

theorem sum_lookup_of_keys (l : List (String × ℚ)) (h : (l.map Prod.fst).Nodup) :
    ((l.map Prod.fst).map fun f => lookupD l f 0).sum = (l.map Prod.snd).sum := by
  induction l with
  | nil => simp
  | cons hd t ih =>
    simp only [List.map_cons, List.nodup_cons] at h ⊢
    obtain ⟨hnot, hnd⟩ := h
    simp only [List.sum_cons]
    have h1 : lookupD (hd :: t) hd.1 0 = hd.2 := by
      simp [lookupD, List.lookup]
    have h2 : (t.map Prod.fst).map (fun f => lookupD (hd :: t) f 0) =
        (t.map Prod.fst).map (fun f => lookupD t f 0) := by
      apply List.map_congr_left
      intro f hf
      have hne : (f == hd.1) = false :=
        beq_eq_false_iff_ne.mpr fun he => hnot (he ▸ hf)
      simp [lookupD, List.lookup, hne]
    rw [h1, h2, ih hnd]

theorem shapSum_take_drop (l : List ShapContribution) (n : ℕ) :
    shapSum (l.take n) + shapSum (l.drop n) = shapSum l := by
  conv_rhs => rw [← List.take_append_drop n l]
  simp [shapSum]

/-- C2: for every raw row, expanded feature-name list and contribution vector
of the same length, the six raw-feature bucket contributions plus the extras
bucket contributions sum to exactly the sum of the input contribution
vector; nothing is dropped.  Over exact rationals the conservation is exact,
hence within any floating-point tolerance. -/
theorem c2_attribution_conservation (raw_row : List (String × Val)) (names : List String)
    (vals : List ℚ) (h : names.length = vals.length) :
    shapSum ((aggregateContributions raw_row names vals).take 6) +
      shapSum ((aggregateContributions raw_row names vals).drop 6) = vals.sum := by
  rw [shapSum_take_drop]
  unfold aggregateContributions shapSum
  simp only [List.map_append, List.sum_append, List.map_map, Function.comp_def]
  have hkeys := foldBuckets_keys names vals
  have hnodup : ((foldBuckets names vals).1.map Prod.fst).Nodup := by
    rw [hkeys]; decide
  have hsix : (RAW_FEATURE_ORDER.map fun f => lookupD (foldBuckets names vals).1 f 0).sum
      = ((foldBuckets names vals).1.map Prod.snd).sum := by
    conv_lhs => rw [← hkeys]
    exact sum_lookup_of_keys _ hnodup
  rw [hsix]
  have hfold := foldl_bucketStep_sum (names.zip vals) (initBuckets, [])
  have hzip : (names.zip vals).map Prod.snd = vals :=
    List.map_snd_zip names vals (le_of_eq h.symm)
  have hsnd : ((foldBuckets names vals).2.map fun p => p.2).sum
      = ((foldBuckets names vals).2.map Prod.snd).sum := rfl
  rw [hsnd]
  unfold foldBuckets
  rw [hfold, hzip]
  simp [initBuckets, RAW_FEATURE_ORDER]

theorem c2_attribution_conservation_witness :
    (["age", "smoker_bmi", "mystery"] : List String).length =
        ([1, 10, 7] : List ℚ).length ∧
      shapSum ((aggregateContributions [] ["age", "smoker_bmi", "mystery"]
          [1, 10, 7]).take 6) +
        shapSum ((aggregateContributions [] ["age", "smoker_bmi", "mystery"]
          [1, 10, 7]).drop 6) = ([1, 10, 7] : List ℚ).sum :=
  ⟨rfl, c2_attribution_conservation [] ["age", "smoker_bmi", "mystery"] [1, 10, 7] rfl⟩

theorem foldBuckets_append_single (ns : List String) (vs : List ℚ) (n : String) (c : ℚ)
    (h : ns.length = vs.length) :
    foldBuckets (ns ++ [n]) (vs ++ [c]) = bucketStep (foldBuckets ns vs) (n, c) := by
  unfold foldBuckets
  rw [List.zip_append h]
  simp

theorem bucketStep_smoker_bmi (st : List (String × ℚ) × List (String × ℚ)) (c : ℚ)
    (h : st.1.map Prod.fst = RAW_FEATURE_ORDER) :
    bucketStep st ("smoker_bmi", c) =
      (updAdd (updAdd st.1 "smoker" (c / 2)) "bmi" (c / 2), st.2) := by
  obtain ⟨b, e⟩ := st
  simp only at h
  have h1 : "smoker_bmi" ∉ b.map Prod.fst := by rw [h]; decide
  have h2 : ¬ (pyStartsWith "smoker_bmi" "region_" = true) := by decide
  simp [bucketStep, h1, h2]

theorem bucketStep_age_bmi (st : List (String × ℚ) × List (String × ℚ)) (c : ℚ)
    (h : st.1.map Prod.fst = RAW_FEATURE_ORDER) :
    bucketStep st ("age_bmi", c) =
      (updAdd (updAdd st.1 "age" (c / 2)) "bmi" (c / 2), st.2) := by
  obtain ⟨b, e⟩ := st
  simp only at h
  have h1 : "age_bmi" ∉ b.map Prod.fst := by rw [h]; decide
  have h2 : ¬ (pyStartsWith "age_bmi" "region_" = true) := by decide
  simp [bucketStep, h1, h2]

/-- C7: a contribution c on the smoker_bmi expanded column adds exactly c/2
to the smoker bucket and exactly c/2 to the bmi bucket, and a contribution
on age_bmi splits the same way between age and bmi. -/
theorem c7_interaction_split (names : List String) (vals : List ℚ) (c : ℚ)
    (h : names.length = vals.length) :
    bucketQ (names ++ ["smoker_bmi"]) (vals ++ [c]) "smoker"
        = bucketQ names vals "smoker" + c / 2 ∧
      bucketQ (names ++ ["smoker_bmi"]) (vals ++ [c]) "bmi"
        = bucketQ names vals "bmi" + c / 2 ∧
      bucketQ (names ++ ["age_bmi"]) (vals ++ [c]) "age"
        = bucketQ names vals "age" + c / 2 ∧
      bucketQ (names ++ ["age_bmi"]) (vals ++ [c]) "bmi"
        = bucketQ names vals "bmi" + c / 2 := by
  have hkeys := foldBuckets_keys names vals
  have hsb := bucketStep_smoker_bmi (foldBuckets names vals) c hkeys
  have hab := bucketStep_age_bmi (foldBuckets names vals) c hkeys
  have hne1 : ("smoker" : String) ≠ "bmi" := by decide
  have hne2 : ("age" : String) ≠ "bmi" := by decide
  refine ⟨?_, ?_, ?_, ?_⟩
  · unfold bucketQ
    rw [foldBuckets_append_single _ _ _ _ h, hsb]
    simp only
    rw [lookupD_updAdd_ne _ _ _ hne1, lookupD_updAdd_self]
  · unfold bucketQ
    rw [foldBuckets_append_single _ _ _ _ h, hsb]
    simp only
    rw [lookupD_updAdd_self]
    congr 1
    exact lookupD_updAdd_ne _ _ _ (by decide)
  · unfold bucketQ
    rw [foldBuckets_append_single _ _ _ _ h, hab]
    simp only
    rw [lookupD_updAdd_ne _ _ _ hne2, lookupD_updAdd_self]
  · unfold bucketQ
    rw [foldBuckets_append_single _ _ _ _ h, hab]
    simp only
    rw [lookupD_updAdd_self]
    congr 1
    exact lookupD_updAdd_ne _ _ _ (by decide)

theorem c7_interaction_split_witness :
    (["age"] : List String).length = ([(1 : ℚ)] : List ℚ).length ∧
      (bucketQ ["age", "smoker_bmi"] [1, 10] "smoker"
          = bucketQ ["age"] [1] "smoker" + 10 / 2 ∧
        bucketQ ["age", "smoker_bmi"] [1, 10] "bmi"
          = bucketQ ["age"] [1] "bmi" + 10 / 2 ∧
        bucketQ ["age", "age_bmi"] [1, 10] "age"
          = bucketQ ["age"] [1] "age" + 10 / 2 ∧
        bucketQ ["age", "age_bmi"] [1, 10] "bmi"
          = bucketQ ["age"] [1] "bmi" + 10 / 2) :=
  ⟨rfl, c7_interaction_split ["age"] [1] 10 rfl⟩

theorem zip_eq_zip_take {α β : Type} (l1 : List α) (l2 : List β) :
    l1.zip l2 = (l1.take l2.length).zip (l2.take l1.length) := by
  induction l1 generalizing l2 with
  | nil => simp
  | cons a t ih =>
    cases l2 with
    | nil => simp
    | cons b s => simp [List.zip_cons_cons, ih s]

/-- C5 counterexample: a 1-D contribution vector whose width 2 does not match
the expanded feature count 3 is neither reshaped nor rejected — the shape
helper passes it through unchanged and the aggregation still produces its
six raw-feature entries, so a width mismatch does not imply
reshape-or-error. -/
theorem c5_counterexample :
    as1dVector ⟨[2], [1, 2]⟩ 3 = .ok [1, 2] ∧
      ([1, 2] : List ℚ).length ≠ 3 ∧
      (aggregateContributions [] ["age", "sex", "bmi"] [1, 2]).length = 6 := by
  refine ⟨rfl, by decide, ?_⟩
  simp [aggregateContributions, foldBuckets, List.zip, List.zipWith, bucketStep,
    initBuckets, RAW_FEATURE_ORDER, updAdd]

/-- C5 as amended: rank-2 contribution structures are flattened to their
first row and rank-3-or-higher structures are reshaped to rows of the
expected width, failing with an error (a numpy ValueError; the code defines
no dedicated exception class) exactly when the total size does not fill a
first row of that width; a rank-1 vector, however, is passed through even
when its width mismatches, after which the bucketing loop zips names with
values and silently ignores the unmatched tail. -/
theorem c5_shape_handling (a : NdArray) (w : ℕ) (row : List (String × Val))
    (names : List String) (vals : List ℚ) :
    (a.shape.length = 1 → as1dVector a w = .ok a.data) ∧
      (a.shape.length = 2 → as1dVector a w = .ok (a.data.take (a.shape.getD 1 0))) ∧
      (3 ≤ a.shape.length → (w = 0 ∨ a.data.length % w ≠ 0 ∨ a.data.length = 0) →
        as1dVector a w = .error "ValueError: cannot reshape array") ∧
      aggregateContributions row names vals =
        aggregateContributions row (names.take vals.length) (vals.take names.length) := by
  refine ⟨?_, ?_, ?_, ?_⟩
  · intro h1
    simp [as1dVector, h1]
  · intro h2
    have h1 : a.shape.length ≠ 1 := by omega
    simp [as1dVector, h1, h2]
  · intro h3 hbad
    have h1 : a.shape.length ≠ 1 := by omega
    have h2 : a.shape.length ≠ 2 := by omega
    have hcond : ¬ (w ≠ 0 ∧ a.data.length % w = 0 ∧ a.data.length ≠ 0) := by
      rcases hbad with hb | hb | hb
      · exact fun hc => hc.1 hb
      · exact fun hc => hb hc.2.1
      · exact fun hc => hc.2.2 hb
    simp only [as1dVector, if_neg h1, if_neg h2, if_pos h3, if_neg hcond]
  · unfold aggregateContributions foldBuckets
    rw [← zip_eq_zip_take]

/-! ## Narrative composer: determinism and shape -/

/-- C8: the fallback narrative composer is a pure function of the attribution
payload and the predicted charge; two calls on equal inputs return equal
(byte-identical) output, there being no randomness or clock input in the
embedding of its computation. -/
theorem c8_narrative_deterministic (p1 p2 : ShapPayload) (c1 c2 : ℚ)
    (hp : p1 = p2) (hc : c1 = c2) :
    generateFallbackInterpretation p1 c1 = generateFallbackInterpretation p2 c2 := by
  subst hp
  subst hc
  rfl

theorem c8_narrative_deterministic_witness :
    generateFallbackInterpretation examplePayload 15000 =
      generateFallbackInterpretation examplePayload 15000 :=
  c8_narrative_deterministic examplePayload examplePayload 15000 15000 rfl rfl

theorem insertByAbsDesc_length (x : ShapContribution) (l : List ShapContribution) :
    (insertByAbsDesc x l).length = l.length + 1 := by
  induction l with
  | nil => rfl
  | cons h t ih =>
    by_cases hc : x.abs_shap_value ≥ h.abs_shap_value
    · simp [insertByAbsDesc, hc]
    · simp [insertByAbsDesc, hc, ih]

theorem sortByAbsDesc_length (l : List ShapContribution) :
    (sortByAbsDesc l).length = l.length := by
  induction l with
  | nil => rfl
  | cons h t ih =>
    simp only [sortByAbsDesc, List.foldr_cons] at ih ⊢
    rw [insertByAbsDesc_length, ih, List.length_cons]

theorem padToFive_length (l : List String) : 5 ≤ (padToFive l).length := by
  simp only [padToFive, List.length_append, List.length_replicate]
  omega

/-- C10: for every attribution payload, an empty one included, and every
predicted charge, the composer emits exactly five bullets, exactly the two
fixed caveat strings, and one direction-and-strength tag per ranked top-five
feature, the strength being rank-based. -/
theorem c10_fallback_shape (p : ShapPayload) (c : ℚ) :
    (generateFallbackInterpretation p c).bullets.length = 5 ∧
      (generateFallbackInterpretation p c).caveats = [caveatLocal, caveatAssoc] ∧
      (generateFallbackInterpretation p c).top_features.length =
        min 5 p.contributions.length ∧
      (generateFallbackInterpretation p c).top_features =
        ((sortByAbsDesc p.contributions).take 5).enum.map fun ri =>
          { feature := ri.2.feature
            direction := topFeatureDirection ri.2.shap_value
            strength := topFeatureStrength ri.1 } := by
  refine ⟨?_, rfl, ?_, rfl⟩
  · show ((padToFive _).take 5).length = 5
    rw [List.length_take]
    exact min_eq_left (padToFive_length _)
  · show (((sortByAbsDesc p.contributions).take 5).enum.map _).length = _
    rw [List.length_map, List.enum_length, List.length_take, sortByAbsDesc_length]

/-! ## Low-signal judgment -/

theorem isLowSignal_eq_spec (interp : InterpretationPayload) (names : List String) :
    isLowSignalInterpretation interp names = lowSignalPerSpec interp.bullets names := by
  unfold isLowSignalInterpretation lowSignalPerSpec countFeatureBullets
  set B := interp.bullets with hB
  set F := fun b => bulletHasFeature (names.map pyLower) b with hF
  by_cases hlen : B.length < 2
  · have hm : B.countP F < 2 :=
      lt_of_le_of_lt (List.countP_le_length F) hlen
    simp [hlen, hm]
  · simp only [if_neg hlen]
    by_cases hm : B.countP F < 2
    · simp [hm]
    · have hge : 2 ≤ B.countP F := le_of_not_lt hm
      have hlen2 : 2 ≤ B.length := le_of_not_lt hlen
      have hsplit := List.length_eq_countP_add_countP F B
      have hmono : B.countP (fun b => !F b && bulletHasGenericToken b) ≤
          B.countP (fun a => decide ¬(F a = true)) := by
        apply List.countP_mono_left
        intro b _ hb
        have hnot := (Bool.and_eq_true _ _).mp hb |>.1
        simpa using hnot
      have hlt : B.countP (fun b => !F b && bulletHasGenericToken b) < B.length := by
        omega
      have hne0 : ¬ (B.countP F = 0) := by omega
      simp [hm, hne0, Nat.ne_of_lt hlt]

/-- C6 as amended: the low-signal classification reproduces the spec formula
with the top-three (not top-five) ranked feature names: an external
narrative is low-signal exactly when fewer than two of its bullets mention
any of the top-three feature names, or when all of its bullets are
generic-token matches with zero feature mentions. -/
theorem c6_low_signal_top3 (interp : InterpretationPayload)
    (contribs : List ShapContribution) :
    isLowSignalInterpretation interp (topThreeFeatureNames contribs) = true ↔
      (countFeatureBullets interp.bullets (topThreeFeatureNames contribs) < 2 ∨
        (countFeatureBullets interp.bullets (topThreeFeatureNames contribs) = 0 ∧
          ∀ b ∈ interp.bullets, bulletHasGenericToken b = true)) := by
  rw [isLowSignal_eq_spec]
  simp [lowSignalPerSpec, List.all_eq_true]

/-- C6 counterexample: a narrative of two distinct bullets, each naming the
fourth-ranked feature, is judged low-signal by the code (which matches
against the top-three names interpret shap passes in) although the claim
formula over the top-five names accepts it. -/
theorem c6_counterexample :
    isLowSignalInterpretation c6Interp (topThreeFeatureNames exampleContribs) = true ∧
      lowSignalPerSpec c6Interp.bullets (topFiveFeatureNames exampleContribs) = false := by
  have h3 : topThreeFeatureNames exampleContribs = ["smoker", "bmi", "age"] := by
    norm_num [topThreeFeatureNames, exampleContribs, sortByAbsDesc, insertByAbsDesc]
  have h5 : topFiveFeatureNames exampleContribs =
      ["smoker", "bmi", "age", "children", "region"] := by
    norm_num [topFiveFeatureNames, exampleContribs, sortByAbsDesc, insertByAbsDesc]
  rw [h3, h5]
  constructor
  · decide
  · decide

/-! ## Transformer state is never mutated when the scaler is present -/

/-- C9: a fitted transformer, one whose feature scaler is present, passes
through transform features with every field of its state unchanged: the lazy
refit branch never runs and nothing else writes to the state. -/
theorem c9_state_unchanged (tr : InsuranceDataTransformer) (f : Frame)
    (ps : List (ℚ × ℚ)) (h : tr.feature_scaler = some ps) :
    (transformFeatures tr f).1 = tr := by
  unfold transformFeatures transformFeaturesInternal
  rw [h]
  simp only
  rcases he : (applyEncoding tr _).bind addInteractions with _ | t2
  · rfl
  · simp only
    rcases hs : selectCols t2 tr.feature_columns with _ | x
    · rfl
    · rfl

theorem c9_state_unchanged_witness :
    (transformFeatures baseTr c3Frame).1 = baseTr :=
  c9_state_unchanged baseTr c3Frame [(3921/100, 1), (3066/100, 1)] rfl

/-! ## Extrapolation warnings -/

theorem isPrefixOf_append_head_ne (a b : Char) (ct pt : List Char) (rest : List Char)
    (hab : b ≠ a) : ((b :: pt).isPrefixOf ((a :: ct) ++ rest)) = false := by
  simp [List.isPrefixOf, beq_eq_false_iff_ne.mpr hab]

theorem pyStartsWith_self_append (p s : String) : pyStartsWith (p ++ s) p = true := by
  rw [pyStartsWith, List.isPrefixOf_iff_prefix, String.data_append]
  exact List.prefix_append _ _

theorem rangeWarnMsg_as_append (c : String) (v : ℚ) (b : ℚ × ℚ) :
    rangeWarnMsg c v b =
      (c ++ "=") ++ (pyFloatStr v ++ " is outside raw train range [" ++
        fmt2f b.1 ++ ", " ++ fmt2f b.2 ++ "]") := by
  simp [rangeWarnMsg, String.append_assoc]

theorem regionWarnMsg_as_append (region : String) :
    regionWarnMsg region =
      ("region" ++ "=") ++ (squote ++ region ++ squote ++
        " was not observed in training data") := by
  simp [regionWarnMsg, String.append_assoc]

theorem startsWith_rangeWarnMsg_self (c : String) (v : ℚ) (b : ℚ × ℚ) :
    pyStartsWith (rangeWarnMsg c v b) (c ++ "=") = true := by
  rw [rangeWarnMsg_as_append]
  exact pyStartsWith_self_append _ _

theorem startsWith_regionWarnMsg_self (region : String) :
    pyStartsWith (regionWarnMsg region) ("region" ++ "=") = true := by
  rw [regionWarnMsg_as_append]
  exact pyStartsWith_self_append _ _

theorem startsWith_msg_false (chead phead : Char) (ctail ptail : List Char)
    (cm p2 s : String) (hm : cm.data = chead :: ctail)
    (hp : p2.data = phead :: ptail) (hne : phead ≠ chead) :
    pyStartsWith (cm ++ s) p2 = false := by
  rw [pyStartsWith, String.data_append, hm, hp]
  exact isPrefixOf_append_head_ne _ _ _ _ _ hne

theorem startsWith_rangeWarnMsg_ne (c c2 : String) (v : ℚ) (b : ℚ × ℚ)
    (a a2 : Char) (t t2 : List Char)
    (hc : c.data = a :: t) (hc2 : (c2 ++ "=").data = a2 :: t2) (hne : a2 ≠ a) :
    pyStartsWith (rangeWarnMsg c v b) (c2 ++ "=") = false := by
  rw [rangeWarnMsg_as_append, pyStartsWith, hc2, String.data_append, String.data_append, hc]
  simp [List.isPrefixOf, beq_eq_false_iff_ne.mpr hne]

theorem startsWith_regionWarnMsg_ne (region c2 : String) (a2 : Char) (t2 : List Char)
    (hc2 : (c2 ++ "=").data = a2 :: t2) (hne : a2 ≠ 'r') :
    pyStartsWith (regionWarnMsg region) (c2 ++ "=") = false := by
  rw [regionWarnMsg_as_append, pyStartsWith, hc2, String.data_append]
  rw [show ("region" ++ "=" : String).data = 'r' :: "egion=".data from rfl]
  simp [List.isPrefixOf, beq_eq_false_iff_ne.mpr hne]

theorem filter_rangeWarn_self (c : String) (v : ℚ) (b : ℚ × ℚ) :
    (rangeWarn c v b).filter (fun w => pyStartsWith w (c ++ "=")) = rangeWarn c v b := by
  unfold rangeWarn
  split
  · simp [startsWith_rangeWarnMsg_self]
  · rfl

theorem filter_rangeWarn_ne (c c2 : String) (v : ℚ) (b : ℚ × ℚ)
    (hfalse : pyStartsWith (rangeWarnMsg c v b) (c2 ++ "=") = false) :
    (rangeWarn c v b).filter (fun w => pyStartsWith w (c2 ++ "=")) = [] := by
  unfold rangeWarn
  split
  · simp [hfalse]
  · rfl

theorem warnsFor_check_age (tr : InsuranceDataTransformer) (r : RawRow) :
    warnsFor (checkExtrapolation tr r) "age" = rangeWarn "age" r.age tr.raw_range_age := by
  unfold warnsFor checkExtrapolation
  rw [List.filter_append, List.filter_append, List.filter_append]
  rw [filter_rangeWarn_self]
  rw [filter_rangeWarn_ne "bmi" "age" _ _
    (startsWith_rangeWarnMsg_ne "bmi" "age" _ _ 'b' 'a' "mi".data "ge=".data rfl rfl
      (by decide))]
  rw [filter_rangeWarn_ne "children" "age" _ _
    (startsWith_rangeWarnMsg_ne "children" "age" _ _ 'c' 'a' "hildren".data "ge=".data rfl rfl
      (by decide))]
  by_cases hreg : r.region ∈ tr.onehot_region_categories
  · simp [hreg]
  · have hx : pyStartsWith (regionWarnMsg r.region) "age=" = false := by
      rw [show ("age=" : String) = "age" ++ "=" from rfl]
      exact startsWith_regionWarnMsg_ne r.region "age" 'a' "ge=".data rfl (by decide)
    simp [hreg, hx]

theorem warnsFor_check_bmi (tr : InsuranceDataTransformer) (r : RawRow) :
    warnsFor (checkExtrapolation tr r) "bmi" = rangeWarn "bmi" r.bmi tr.raw_range_bmi := by
  unfold warnsFor checkExtrapolation
  rw [List.filter_append, List.filter_append, List.filter_append]
  rw [filter_rangeWarn_self]
  rw [filter_rangeWarn_ne "age" "bmi" _ _
    (startsWith_rangeWarnMsg_ne "age" "bmi" _ _ 'a' 'b' "ge".data "mi=".data rfl rfl
      (by decide))]
  rw [filter_rangeWarn_ne "children" "bmi" _ _
    (startsWith_rangeWarnMsg_ne "children" "bmi" _ _ 'c' 'b' "hildren".data "mi=".data rfl rfl
      (by decide))]
  by_cases hreg : r.region ∈ tr.onehot_region_categories
  · simp [hreg]
  · have hx : pyStartsWith (regionWarnMsg r.region) "bmi=" = false := by
      rw [show ("bmi=" : String) = "bmi" ++ "=" from rfl]
      exact startsWith_regionWarnMsg_ne r.region "bmi" 'b' "mi=".data rfl (by decide)
    simp [hreg, hx]

theorem warnsFor_check_children (tr : InsuranceDataTransformer) (r : RawRow) :
    warnsFor (checkExtrapolation tr r) "children" =
      rangeWarn "children" r.children tr.raw_range_children := by
  unfold warnsFor checkExtrapolation
  rw [List.filter_append, List.filter_append, List.filter_append]
  rw [filter_rangeWarn_self]
  rw [filter_rangeWarn_ne "age" "children" _ _
    (startsWith_rangeWarnMsg_ne "age" "children" _ _ 'a' 'c' "ge".data "hildren=".data rfl rfl
      (by decide))]
  rw [filter_rangeWarn_ne "bmi" "children" _ _
    (startsWith_rangeWarnMsg_ne "bmi" "children" _ _ 'b' 'c' "mi".data "hildren=".data rfl rfl
      (by decide))]
  by_cases hreg : r.region ∈ tr.onehot_region_categories
  · simp [hreg]
  · have hx : pyStartsWith (regionWarnMsg r.region) "children=" = false := by
      rw [show ("children=" : String) = "children" ++ "=" from rfl]
      exact startsWith_regionWarnMsg_ne r.region "children" 'c' "hildren=".data rfl (by decide)
    simp [hreg, hx]

theorem warnsFor_check_region (tr : InsuranceDataTransformer) (r : RawRow) :
    warnsFor (checkExtrapolation tr r) "region" =
      (if r.region ∈ tr.onehot_region_categories then [] else [regionWarnMsg r.region]) := by
  unfold warnsFor checkExtrapolation
  rw [List.filter_append, List.filter_append, List.filter_append]
  rw [filter_rangeWarn_ne "age" "region" _ _
    (startsWith_rangeWarnMsg_ne "age" "region" _ _ 'a' 'r' "ge".data "egion=".data rfl rfl
      (by decide))]
  rw [filter_rangeWarn_ne "bmi" "region" _ _
    (startsWith_rangeWarnMsg_ne "bmi" "region" _ _ 'b' 'r' "mi".data "egion=".data rfl rfl
      (by decide))]
  rw [filter_rangeWarn_ne "children" "region" _ _
    (startsWith_rangeWarnMsg_ne "children" "region" _ _ 'c' 'r' "hildren".data "egion=".data
      rfl rfl (by decide))]
  by_cases hreg : r.region ∈ tr.onehot_region_categories
  · simp [hreg]
  · have hx : pyStartsWith (regionWarnMsg r.region) "region=" = true := by
      rw [show ("region=" : String) = "region" ++ "=" from rfl]
      exact startsWith_regionWarnMsg_self r.region
    simp [hreg, hx]

/-- C4 as amended: check extrapolation reports, in the fixed order age, bmi,
children, region, one warning per numeric feature strictly outside its
fitted raw range (a value exactly at either bound warns nothing, a value
beyond a bound yields exactly one warning for that feature carrying its name
and both training bounds, though no direction word), followed by exactly one
unseen-category warning iff the region level was not observed in training;
the check clamps nothing, being a pure report over the row. -/
theorem c4_extrapolation_warnings (tr : InsuranceDataTransformer) (r : RawRow) :
    (tr.raw_range_age.1 ≤ r.age ∧ r.age ≤ tr.raw_range_age.2 →
        warnsFor (checkExtrapolation tr r) "age" = []) ∧
      (r.age < tr.raw_range_age.1 ∨ r.age > tr.raw_range_age.2 →
        warnsFor (checkExtrapolation tr r) "age" =
          [rangeWarnMsg "age" r.age tr.raw_range_age]) ∧
      (tr.raw_range_bmi.1 ≤ r.bmi ∧ r.bmi ≤ tr.raw_range_bmi.2 →
        warnsFor (checkExtrapolation tr r) "bmi" = []) ∧
      (r.bmi < tr.raw_range_bmi.1 ∨ r.bmi > tr.raw_range_bmi.2 →
        warnsFor (checkExtrapolation tr r) "bmi" =
          [rangeWarnMsg "bmi" r.bmi tr.raw_range_bmi]) ∧
      (tr.raw_range_children.1 ≤ r.children ∧ r.children ≤ tr.raw_range_children.2 →
        warnsFor (checkExtrapolation tr r) "children" = []) ∧
      (r.children < tr.raw_range_children.1 ∨ r.children > tr.raw_range_children.2 →
        warnsFor (checkExtrapolation tr r) "children" =
          [rangeWarnMsg "children" r.children tr.raw_range_children]) ∧
      (r.region ∈ tr.onehot_region_categories →
        warnsFor (checkExtrapolation tr r) "region" = []) ∧
      (r.region ∉ tr.onehot_region_categories →
        warnsFor (checkExtrapolation tr r) "region" = [regionWarnMsg r.region]) ∧
      checkExtrapolation tr r =
        warnsFor (checkExtrapolation tr r) "age" ++
          warnsFor (checkExtrapolation tr r) "bmi" ++
          warnsFor (checkExtrapolation tr r) "children" ++
          warnsFor (checkExtrapolation tr r) "region" := by
  refine ⟨?_, ?_, ?_, ?_, ?_, ?_, ?_, ?_, ?_⟩
  · intro h
    rw [warnsFor_check_age]
    unfold rangeWarn
    rw [if_neg (by push_neg; exact ⟨h.1, h.2⟩)]
  · intro h
    rw [warnsFor_check_age]
    unfold rangeWarn
    rw [if_pos h]
  · intro h
    rw [warnsFor_check_bmi]
    unfold rangeWarn
    rw [if_neg (by push_neg; exact ⟨h.1, h.2⟩)]
  · intro h
    rw [warnsFor_check_bmi]
    unfold rangeWarn
    rw [if_pos h]
  · intro h
    rw [warnsFor_check_children]
    unfold rangeWarn
    rw [if_neg (by push_neg; exact ⟨h.1, h.2⟩)]
  · intro h
    rw [warnsFor_check_children]
    unfold rangeWarn
    rw [if_pos h]
  · intro h
    rw [warnsFor_check_region, if_pos h]
  · intro h
    rw [warnsFor_check_region, if_neg h]
  · rw [warnsFor_check_age, warnsFor_check_bmi, warnsFor_check_children,
      warnsFor_check_region]
    rfl

/-- C4 counterexample: against a fitted state with training bmi range
[15.96, 49.06], the row with bmi 50 yields exactly one warning, but that
warning names no direction: the text carries the value and both bounds yet
never the word above, refuting the claim that the warning names the correct
direction. -/
theorem c4_counterexample :
    checkExtrapolation baseTr c4Row = [rangeWarnMsg "bmi" 50 (1596/100, 4906/100)] ∧
      pyContains (rangeWarnMsg "bmi" 50 (1596/100, 4906/100)) "above" = false := by
  have h50 : pyFloatStr (50 : ℚ) = "50.0" := by
    norm_num [pyFloatStr]
    decide
  have hlo : fmt2f (1596/100 : ℚ) = "15.96" := by
    norm_num [fmt2f, roundHalfEven]
    decide
  have hhi : fmt2f (4906/100 : ℚ) = "49.06" := by
    norm_num [fmt2f, roundHalfEven]
    decide
  have hmsg : rangeWarnMsg "bmi" 50 (1596/100, 4906/100) =
      "bmi=50.0 is outside raw train range [15.96, 49.06]" := by
    rw [rangeWarnMsg]
    simp only [h50, hlo, hhi]
    decide
  constructor
  · norm_num [checkExtrapolation, baseTr, c4Row, rangeWarn]
  · rw [hmsg]
    decide

/-! ## Frame lemmas for the column-order contract -/

theorem getCol_some_of_mem {f : Frame} {c : String} (h : c ∈ colsOf f) :
    ∃ v, getCol f c = some v := by
  induction f with
  | nil => simp [colsOf] at h
  | cons hd t ih =>
    by_cases hc : c = hd.1
    · exact ⟨hd.2, by simp [getCol, List.lookup, hc]⟩
    · have hbeq : (c == hd.1) = false := beq_eq_false_iff_ne.mpr hc
      have hmem : c ∈ colsOf t := by
        rcases List.mem_cons.mp h with h1 | h1
        · exact absurd h1 hc
        · exact h1
      obtain ⟨v, hv⟩ := ih hmem
      exact ⟨v, by simp [getCol, List.lookup, hbeq] at hv ⊢; exact hv⟩

theorem mem_of_getCol_some {f : Frame} {c : String} {v : Val} (h : getCol f c = some v) :
    c ∈ colsOf f := by
  induction f with
  | nil => simp [getCol, List.lookup] at h
  | cons hd t ih =>
    by_cases hc : c = hd.1
    · simp [colsOf, hc]
    · have hbeq : (c == hd.1) = false := beq_eq_false_iff_ne.mpr hc
      simp only [getCol, List.lookup, hbeq] at h
      exact List.mem_cons.mpr (Or.inr (ih h))

theorem colsOf_setCol_mem {f : Frame} {c : String} (v : Val) (h : c ∈ colsOf f) :
    colsOf (setCol f c v) = colsOf f := by
  induction f with
  | nil => simp [colsOf] at h
  | cons hd t ih =>
    obtain ⟨c0, v0⟩ := hd
    by_cases hc : c0 = c
    · rw [show setCol ((c0, v0) :: t) c v = (c, v) :: t from by rw [setCol, if_pos hc]]
      simp [colsOf, hc]
    · rw [show setCol ((c0, v0) :: t) c v = (c0, v0) :: setCol t c v from by
        rw [setCol, if_neg hc]]
      have hmem : c ∈ colsOf t := by
        rcases List.mem_cons.mp h with h1 | h1
        · exact absurd h1.symm hc
        · exact h1
      simp only [colsOf, List.map_cons]
      rw [show List.map Prod.fst (setCol t c v) = colsOf (setCol t c v) from rfl,
        ih hmem]
      rfl

theorem mem_colsOf_setCol_self (f : Frame) (c : String) (v : Val) :
    c ∈ colsOf (setCol f c v) := by
  induction f with
  | nil => simp [setCol, colsOf]
  | cons hd t ih =>
    obtain ⟨c0, v0⟩ := hd
    by_cases hc : c0 = c
    · rw [show setCol ((c0, v0) :: t) c v = (c, v) :: t from by rw [setCol, if_pos hc]]
      simp [colsOf]
    · rw [show setCol ((c0, v0) :: t) c v = (c0, v0) :: setCol t c v from by
        rw [setCol, if_neg hc]]
      simp only [colsOf, List.map_cons]
      exact List.mem_cons.mpr (Or.inr ih)

theorem mem_colsOf_setCol_of_mem {f : Frame} {c2 : String} (c : String) (v : Val)
    (h : c2 ∈ colsOf f) : c2 ∈ colsOf (setCol f c v) := by
  induction f with
  | nil => simp [colsOf] at h
  | cons hd t ih =>
    obtain ⟨c0, v0⟩ := hd
    by_cases hc : c0 = c
    · rw [show setCol ((c0, v0) :: t) c v = (c, v) :: t from by rw [setCol, if_pos hc]]
      rcases List.mem_cons.mp h with h1 | h1
      · exact List.mem_cons.mpr (Or.inl (hc ▸ h1))
      · exact List.mem_cons.mpr (Or.inr h1)
    · rw [show setCol ((c0, v0) :: t) c v = (c0, v0) :: setCol t c v from by
        rw [setCol, if_neg hc]]
      rcases List.mem_cons.mp h with h1 | h1
      · exact List.mem_cons.mpr (Or.inl h1)
      · exact List.mem_cons.mpr (Or.inr (ih h1))

theorem encodeRegions_spec (pairs : List (String × String)) (f : Frame)
    (hreg : "region" ∈ colsOf f) :
    ∃ g, encodeRegions pairs f = some g ∧
      (∀ c ∈ colsOf f, c ∈ colsOf g) ∧
      (∀ col ∈ pairs.map Prod.snd, col ∈ colsOf g) := by
  induction pairs generalizing f with
  | nil => exact ⟨f, rfl, fun c hc => hc, by simp⟩
  | cons p rest ih =>
    obtain ⟨category, col⟩ := p
    obtain ⟨r, hr⟩ := getCol_some_of_mem hreg
    have hreg2 : "region" ∈ colsOf (setCol f col (oneHotVal r category)) :=
      mem_colsOf_setCol_of_mem _ _ hreg
    obtain ⟨g, hg, hsub, hcov⟩ := ih (setCol f col (oneHotVal r category)) hreg2
    refine ⟨g, ?_, ?_, ?_⟩
    · rw [encodeRegions, hr]
      exact hg
    · intro c hc
      exact hsub c (mem_colsOf_setCol_of_mem _ _ hc)
    · intro c hc
      rcases List.mem_cons.mp hc with h1 | h1
      · exact hsub c (h1 ▸ mem_colsOf_setCol_self f col _)
      · exact hcov c h1

theorem applyEncoding_spec (tr : InsuranceDataTransformer) (f : Frame)
    (hlen : tr.onehot_region_categories.length = tr.onehot_region_columns.length)
    (hsex : "sex" ∈ colsOf f) (hsmo : "smoker" ∈ colsOf f)
    (hreg : "region" ∈ colsOf f) :
    ∃ g, applyEncoding tr f = some g ∧
      (∀ c ∈ colsOf f, c ∈ colsOf g) ∧
      (∀ col ∈ tr.onehot_region_columns, col ∈ colsOf g) := by
  obtain ⟨sv, hsv⟩ := getCol_some_of_mem hsex
  have hsmo1 : "smoker" ∈ colsOf (setCol f "sex" (mapBinary binarySex sv)) :=
    mem_colsOf_setCol_of_mem _ _ hsmo
  obtain ⟨mv, hmv⟩ := getCol_some_of_mem hsmo1
  have hreg2 : "region" ∈
      colsOf (setCol (setCol f "sex" (mapBinary binarySex sv)) "smoker"
        (mapBinary binarySmoker mv)) :=
    mem_colsOf_setCol_of_mem _ _ (mem_colsOf_setCol_of_mem _ _ hreg)
  obtain ⟨g, hg, hsub, hcov⟩ :=
    encodeRegions_spec (tr.onehot_region_categories.zip tr.onehot_region_columns) _ hreg2
  refine ⟨g, ?_, ?_, ?_⟩
  · rw [applyEncoding]
    simp only [hsv, hmv]
    exact hg
  · intro c hc
    exact hsub c (mem_colsOf_setCol_of_mem _ _ (mem_colsOf_setCol_of_mem _ _ hc))
  · intro col hcol
    apply hcov
    rw [List.map_snd_zip _ _ (le_of_eq hlen.symm)]
    exact hcol

theorem addInteractions_spec (f : Frame)
    (hsmo : "smoker" ∈ colsOf f) (hbmi : "bmi" ∈ colsOf f) (hage : "age" ∈ colsOf f) :
    ∃ g, addInteractions f = some g ∧
      (∀ c ∈ colsOf f, c ∈ colsOf g) ∧
      "smoker_bmi" ∈ colsOf g ∧ "age_bmi" ∈ colsOf g := by
  obtain ⟨sv, hsv⟩ := getCol_some_of_mem hsmo
  obtain ⟨bv, hbv⟩ := getCol_some_of_mem hbmi
  have hage1 : "age" ∈ colsOf (setCol f "smoker_bmi" (mulVal sv bv)) :=
    mem_colsOf_setCol_of_mem _ _ hage
  have hbmi1 : "bmi" ∈ colsOf (setCol f "smoker_bmi" (mulVal sv bv)) :=
    mem_colsOf_setCol_of_mem _ _ hbmi
  obtain ⟨av, hav⟩ := getCol_some_of_mem hage1
  obtain ⟨bv2, hbv2⟩ := getCol_some_of_mem hbmi1
  refine ⟨setCol (setCol f "smoker_bmi" (mulVal sv bv)) "age_bmi" (mulVal av bv2),
    ?_, ?_, ?_, ?_⟩
  · rw [addInteractions]
    simp only [hsv, hbv, hav, hbv2]
  · intro c hc
    exact mem_colsOf_setCol_of_mem _ _ (mem_colsOf_setCol_of_mem _ _ hc)
  · exact mem_colsOf_setCol_of_mem _ _ (mem_colsOf_setCol_self _ _ _)
  · exact mem_colsOf_setCol_self _ _ _

theorem selectCols_spec (f : Frame) (cs : List String)
    (h : ∀ c ∈ cs, c ∈ colsOf f) :
    ∃ g, selectCols f cs = some g ∧ colsOf g = cs := by
  induction cs with
  | nil => exact ⟨[], rfl, rfl⟩
  | cons c rest ih =>
    obtain ⟨v, hv⟩ := getCol_some_of_mem (h c (List.mem_cons_self c rest))
    obtain ⟨g, hg, hcols⟩ := ih fun c2 hc2 => h c2 (List.mem_cons.mpr (Or.inr hc2))
    refine ⟨(c, v) :: g, ?_, ?_⟩
    · rw [selectCols, hv, hg]
    · simp [colsOf] at hcols ⊢
      exact hcols

theorem colsOf_applyScaler (cols : List String) (ps : List (ℚ × ℚ)) (f : Frame) :
    colsOf (applyScaler cols ps f) = colsOf f := by
  unfold applyScaler
  generalize cols.zip ps = l
  induction l generalizing f with
  | nil => rfl
  | cons cp rest ih =>
    simp only [List.foldl_cons]
    rcases hv : getCol f cp.1 with _ | v
    · exact ih f
    · have hstep := ih (setCol f cp.1 (scaleVal cp.2.1 cp.2.2 v))
      rw [colsOf_setCol_mem _ (mem_of_getCol_some hv)] at hstep
      exact hstep

/-- C3: for every valid raw input row holding the six schema columns in any
order, the transformed frame exists and its column labels equal the fitted
feature columns exactly, in the fixed fit-time order: age, sex, bmi,
children, smoker, the one-hot region columns, smoker_bmi, age_bmi. -/
theorem c3_transform_column_order (tr : InsuranceDataTransformer) (f : Frame)
    (hcols : tr.feature_columns = getFeatureColumnsAfterEncode tr.onehot_region_columns)
    (hoh : tr.onehot_region_columns =
      tr.onehot_region_categories.map (fun c => "region_" ++ c))
    (hval : ∀ c ∈ RAW_FEATURE_ORDER, c ∈ colsOf f) :
    ((transformFeatures tr f).2).map colsOf = some tr.feature_columns := by
  have hlen : tr.onehot_region_categories.length = tr.onehot_region_columns.length := by
    rw [hoh, List.length_map]
  have hage := hval "age" (by decide)
  have hsex := hval "sex" (by decide)
  have hbmi := hval "bmi" (by decide)
  have hchi := hval "children" (by decide)
  have hsmo := hval "smoker" (by decide)
  have hreg := hval "region" (by decide)
  obtain ⟨bv, hbv⟩ := getCol_some_of_mem hbmi
  have hmemt : ∀ c, c ∈ colsOf f →
      c ∈ colsOf (setCol f "bmi" (clipVal tr.winsorize_bmi bv)) :=
    fun c hc => mem_colsOf_setCol_of_mem _ _ hc
  obtain ⟨g1, hg1, hsub1, hcov1⟩ :=
    applyEncoding_spec tr (setCol f "bmi" (clipVal tr.winsorize_bmi bv)) hlen
      (hmemt _ hsex) (hmemt _ hsmo) (hmemt _ hreg)
  obtain ⟨g2, hg2, hsub2, hsb2, hab2⟩ :=
    addInteractions_spec g1 (hsub1 _ (hmemt _ hsmo)) (hsub1 _ (hmemt _ hbmi))
      (hsub1 _ (hmemt _ hage))
  have hbind : (applyEncoding tr (setCol f "bmi" (clipVal tr.winsorize_bmi bv))).bind
      addInteractions = some g2 := by
    rw [hg1]
    exact hg2
  have hfg2 : ∀ c, c ∈ colsOf f → c ∈ colsOf g2 :=
    fun c hc => hsub2 _ (hsub1 _ (hmemt _ hc))
  have hmemsel : ∀ c ∈ tr.feature_columns, c ∈ colsOf g2 := by
    rw [hcols]
    unfold getFeatureColumnsAfterEncode
    intro c hc
    rcases List.mem_append.mp hc with hc1 | hc1
    · rcases List.mem_append.mp hc1 with hc2 | hc2
      · have : c = "age" ∨ c = "sex" ∨ c = "bmi" ∨ c = "children" ∨ c = "smoker" := by
          simpa using hc2
        rcases this with rfl | rfl | rfl | rfl | rfl
        · exact hfg2 _ hage
        · exact hfg2 _ hsex
        · exact hfg2 _ hbmi
        · exact hfg2 _ hchi
        · exact hfg2 _ hsmo
      · exact hsub2 _ (hcov1 _ hc2)
    · have : c = "smoker_bmi" ∨ c = "age_bmi" := by simpa using hc1
      rcases this with rfl | rfl
      · exact hsb2
      · exact hab2
  obtain ⟨x, hx, hxcols⟩ := selectCols_spec g2 tr.feature_columns hmemsel
  unfold transformFeatures transformFeaturesInternal
  simp only [hbv, hbind, hx]
  cases hfs : tr.feature_scaler with
  | none => simp [colsOf_applyScaler, hxcols]
  | some ps => simp [colsOf_applyScaler, hxcols]

theorem c3_transform_column_order_witness :
    ((transformFeatures baseTr c3Frame).2).map colsOf = some baseTr.feature_columns :=
  c3_transform_column_order baseTr c3Frame rfl (by decide) (by decide)

/-! ## Target-transform invertibility -/

theorem winsorizeQ_of_le_le {b : ℚ × ℚ} {y : ℚ} (h1 : b.1 ≤ y) (h2 : y ≤ b.2) :
    winsorizeQ b y = y := by
  unfold winsorizeQ
  rw [max_eq_right h1, min_eq_right h2]

theorem fitTargetScaler_scale_ne_zero (bounds : ℚ × ℚ) (ys : List ℚ) :
    (fitTargetScaler bounds ys).2 ≠ 0 := by
  unfold fitTargetScaler
  simp only
  split_ifs with hz
  · exact one_ne_zero
  · refine ne_of_gt (Real.sqrt_pos.mpr (lt_of_le_of_ne ?_ (Ne.symm hz)))
    apply div_nonneg
    · apply List.sum_nonneg
      intro x hx
      obtain ⟨t, _, rfl⟩ := List.mem_map.mp hx
      positivity
    · positivity

/-- C1 as amended: for every fitted transformer, the inverse target transform
undoes the forward target transform exactly (hence within any relative
tolerance) for every nonnegative charge observed in training that lies
within the fitted winsorize bounds for charges; a training charge outside
those bounds is clamped and does not round-trip. -/
theorem c1_target_roundtrip (tr : InsuranceDataTransformer) (ys : List ℚ) (y : ℚ)
    (hb : tr.winsorize_charges = iqrBounds ys IQR_MULTIPLIER)
    (hs : tr.target_scaler = some (fitTargetScaler (iqrBounds ys IQR_MULTIPLIER) ys))
    (hlog : tr.target_log = true)
    (hy : y ∈ ys) (h0 : 0 ≤ y)
    (hlo : (iqrBounds ys IQR_MULTIPLIER).1 ≤ y)
    (hhi : y ≤ (iqrBounds ys IQR_MULTIPLIER).2) :
    |inverseTransformTarget tr (forwardTargetTransform tr y) - ((y : ℚ) : ℝ)| ≤
      (1 / 1000000) * |((y : ℚ) : ℝ)| := by
  have hclamp : winsorizeQ tr.winsorize_charges y = y := by
    rw [hb]
    exact winsorizeQ_of_le_le hlo hhi
  have hsig := fitTargetScaler_scale_ne_zero (iqrBounds ys IQR_MULTIPLIER) ys
  unfold forwardTargetTransform inverseTransformTarget
  rw [hs, hlog, hclamp]
  simp only [if_true]
  rw [div_mul_cancel₀ _ hsig, sub_add_cancel]
  have hpos : (0 : ℝ) < 1 + ((y : ℚ) : ℝ) := by
    have hy0 : (0 : ℝ) ≤ ((y : ℚ) : ℝ) := by exact_mod_cast h0
    linarith
  have hexp : expm1 (log1p ((y : ℚ) : ℝ)) = ((y : ℚ) : ℝ) := by
    unfold expm1 log1p
    rw [Real.exp_log hpos]
    ring
  rw [hexp, sub_self, abs_zero]
  positivity

theorem c1_target_roundtrip_witness :
    ((2 : ℚ) ∈ c1WitnessCharges ∧ (0 : ℚ) ≤ 2 ∧
        (iqrBounds c1WitnessCharges IQR_MULTIPLIER).1 ≤ 2 ∧
        (2 : ℚ) ≤ (iqrBounds c1WitnessCharges IQR_MULTIPLIER).2) ∧
      |inverseTransformTarget c1WitnessTr (forwardTargetTransform c1WitnessTr 2) -
          ((2 : ℚ) : ℝ)| ≤ (1 / 1000000) * |((2 : ℚ) : ℝ)| :=
  ⟨⟨by norm_num [c1WitnessCharges], by norm_num,
      by norm_num [iqrBounds, quantileQ, sortAsc, insertAsc, listMinQ, listMaxQ,
        IQR_MULTIPLIER, c1WitnessCharges],
      by norm_num [iqrBounds, quantileQ, sortAsc, insertAsc, listMinQ, listMaxQ,
        IQR_MULTIPLIER, c1WitnessCharges]⟩,
    c1_target_roundtrip c1WitnessTr c1WitnessCharges 2 rfl rfl rfl
      (by norm_num [c1WitnessCharges]) (by norm_num)
      (by norm_num [iqrBounds, quantileQ, sortAsc, insertAsc, listMinQ, listMaxQ,
        IQR_MULTIPLIER, c1WitnessCharges])
      (by norm_num [iqrBounds, quantileQ, sortAsc, insertAsc, listMinQ, listMaxQ,
        IQR_MULTIPLIER, c1WitnessCharges])⟩

/-- C1 counterexample: fitting on the training charges [0, 0, 0, 0, 100]
gives winsorize bounds (0, 0) for charges, because the IQR fence collapses
onto the quartiles; the observed training charge 100 is clamped to 0 by the
forward transform, and the round trip returns 0, far outside the claimed
relative tolerance of one in a million. -/
theorem c1_counterexample :
    (100 : ℚ) ∈ c1CounterCharges ∧
      ¬ (|inverseTransformTarget c1CounterTr (forwardTargetTransform c1CounterTr 100) -
            ((100 : ℚ) : ℝ)| ≤ (1 / 1000000) * |((100 : ℚ) : ℝ)|) := by
  have hb : iqrBounds c1CounterCharges IQR_MULTIPLIER = (0, 0) := by
    norm_num [iqrBounds, quantileQ, sortAsc, insertAsc, listMinQ, listMaxQ,
      IQR_MULTIPLIER, c1CounterCharges, show Int.toNat 3 = 3 from rfl,
      List.getD_cons_succ, List.getD_cons_zero]
  have hw100 : winsorizeQ (0, 0) (100 : ℚ) = 0 := by norm_num [winsorizeQ]
  have hw0 : winsorizeQ (0, 0) (0 : ℚ) = 0 := by norm_num [winsorizeQ]
  have hl0 : log1p (0 : ℝ) = 0 := by
    unfold log1p
    norm_num [Real.log_one]
  have hF : fitTargetScaler (iqrBounds c1CounterCharges IQR_MULTIPLIER)
      c1CounterCharges = (0, 1) := by
    rw [hb]
    unfold fitTargetScaler
    simp only [c1CounterCharges, List.map_cons, List.map_nil, hw0, hw100]
    norm_num [hl0]
  constructor
  · norm_num [c1CounterCharges]
  · unfold forwardTargetTransform inverseTransformTarget
    rw [show c1CounterTr.target_scaler =
        some (fitTargetScaler (iqrBounds c1CounterCharges IQR_MULTIPLIER)
          c1CounterCharges) from rfl, hF]
    rw [show c1CounterTr.target_log = true from rfl]
    rw [show c1CounterTr.winsorize_charges =
        iqrBounds c1CounterCharges IQR_MULTIPLIER from rfl, hb, hw100]
    simp only [if_true]
    unfold expm1
    norm_num [hl0, Real.exp_zero]
